import Mathlib

/-!
# Verification of the dream-draw screenplay editor core

Shallow embedding of the block-editing state machine, the autocomplete rule
engine, the known-locations projection, and the anchor resolver of
`src/components/Editor.tsx` (with the popup key listener from
`src/components/Autocomplete.tsx`), together with theorems settling the
frozen claims about the natural-language design spec.

Strings are modelled as Lean `String` / `List Char`; all source inputs of
interest are ASCII, where JavaScript's UTF-16 `.length` and index
arithmetic coincide with character counts.
-/

namespace DreamDraw

/-- The six block types of `BlockType` in `Editor.tsx`. -/
inductive BlockType where
  | scene_heading
  | action
  | character
  | dialogue
  | parenthetical
  | transition
deriving DecidableEq, Repr

/-- `Block` from `Editor.tsx`: id, type, plain-text content. -/
structure Block where
  id : String
  type : BlockType
  content : String
deriving DecidableEq, Repr

/-- The keys the editor's handlers discriminate on. -/
inductive Key where
  | enter
  | tab
  | backspace
  | arrowUp
  | arrowDown
  | escape
  | other
deriving DecidableEq, Repr

/-- The controller state of the `Editor` component: the block list plus the
focus and autocomplete state hooks (`focusedId`, `shouldFocus`, `acShow`,
`acOptions`, `acMatchRange`).  The anchor rectangle is geometry-only and is
modelled separately by the anchor resolver. -/
structure EditorState where
  blocks : List Block
  focusedId : Option String
  shouldFocus : Bool
  acShow : Bool
  acOptions : List String
  acMatchRange : Option (Nat × Nat)
deriving DecidableEq, Repr

/-! ## Character-list string primitives

JavaScript string operations used by the source, re-implemented over
`List Char` with structural recursion so that everything kernel-evaluates. -/

/-- `listStarts p s` : does `s` start with `p`?  (JS `s.startsWith(p)`.) -/
def listStarts : List Char → List Char → Bool
  | [], _ => true
  | _ :: _, [] => false
  | p :: ps, s :: ss => p == s && listStarts ps ss

/-- JS `s.includes(pat)` for a non-empty `pat`. -/
def containsSub : List Char → List Char → Bool
  | s, pat =>
    if listStarts pat s then true
    else
      match s with
      | [] => false
      | _ :: rest => containsSub rest pat

/-- All indices `i ≤ s.length` at which `pat` occurs in `s`
(overlapping occurrences included). -/
def subOccurrences (s pat : List Char) : List Nat :=
  (List.range (s.length + 1)).filter (fun i => listStarts pat (s.drop i))

/-- JS `s.lastIndexOf(pat)` restricted to the case where `pat` occurs. -/
def lastIndexOfSub (s pat : List Char) : Option Nat :=
  (subOccurrences s pat).getLast?

/-- Select the leftmost non-overlapping occurrences from an ascending
occurrence list, the way JS `split` scans. -/
def greedySelect (patLen : Nat) : List Nat → Option Nat → List Nat
  | [], _ => []
  | i :: rest, none => i :: greedySelect patLen rest (some i)
  | i :: rest, some last =>
    if last + patLen ≤ i then i :: greedySelect patLen rest (some i)
    else greedySelect patLen rest (some last)

/-- Cut `s` at the given (ascending, non-overlapping) occurrence indices,
removing `patLen` characters at each cut. -/
def cutSegments (s : List Char) (patLen : Nat) : Nat → List Nat → List (List Char)
  | start, [] => [s.drop start]
  | start, i :: rest => (s.drop start).take (i - start) :: cutSegments s patLen (i + patLen) rest

/-- JS `s.split(pat)` for a non-empty separator `pat`. -/
def splitOnSub (s pat : List Char) : List (List Char) :=
  cutSegments s pat.length 0 (greedySelect pat.length (subOccurrences s pat) none)

/-- JS `\s` on the ASCII range (space, tab, newline, carriage return,
form feed, vertical tab). -/
def isJsSpace (c : Char) : Bool :=
  c == ' ' || c == '\t' || c == '\n' || c == '\r' || c == '\x0c' || c == '\x0b'

/-- JS `s.trim()`: strip whitespace from both ends. -/
def trimChars (l : List Char) : List Char :=
  ((l.dropWhile isJsSpace).reverse.dropWhile isJsSpace).reverse

/-- JS `s.toUpperCase()` on ASCII text. -/
def upperChars (l : List Char) : List Char :=
  l.map Char.toUpper

/-! ## KnownLocations projection (`knownLocations` memo, Editor.tsx 74-87) -/

/-- The replacement
`parts[0].replace(/^(INT\.|EXT\.|INT\.\/EXT\.)\s*/i, '')` from the source.
The regex alternation is ordered: `INT\.` is tried first, so for text
beginning `INT./EXT.` only `INT.` (plus following whitespace, of which
there is none before the `/`) is removed; the third alternative is
unreachable and is kept here only to mirror the source. -/
def stripLeadingToken (l : List Char) : List Char :=
  let u := upperChars l
  if listStarts "INT.".toList u then (l.drop 4).dropWhile isJsSpace
  else if listStarts "EXT.".toList u then (l.drop 4).dropWhile isJsSpace
  else if listStarts "INT./EXT.".toList u then (l.drop 9).dropWhile isJsSpace
  else l

/-- `knownLocations` (Editor.tsx 74-87): for each scene_heading block, take
the text before the first `-`, strip a leading INT./EXT. token, trim,
uppercase, and collect into an insertion-ordered set. -/
def knownLocations (blocks : List Block) : List String :=
  blocks.foldl
    (fun locs b =>
      if b.type = BlockType.scene_heading then
        match splitOnSub b.content.toList ['-'] with
        | [] => locs
        | p0 :: _ =>
          if p0 = [] then locs
          else
            let locPart := trimChars (stripLeadingToken p0)
            if locPart = [] then locs
            else
              let s := (upperChars locPart).asString
              if locs.contains s then locs else locs ++ [s]
      else locs)
    []

/-! ## Autocomplete rule engine (`handleInput`, Editor.tsx 238-290) -/

/-- The scene-heading lead-in options of stage 1. -/
def acLeadIns : List String := ["INT. ", "EXT. ", "INT./EXT. "]

/-- The time-of-day options of stage 2. -/
def acTimes : List String := ["DAY", "NIGHT", "LATER", "CONTINUOUS", "MOMENTS LATER"]

/-- The anchored match `/^(INT\.|EXT\.|INT\.\/EXT\.)\s*/i` of stage 3:
returns the length of the matched text (token plus trailing whitespace
run).  Ordered alternation: `INT\.` first, so the third branch is
unreachable (any text starting with `INT./EXT.` starts with `INT.`). -/
def sceneTokenMatchLen (u : List Char) : Option Nat :=
  if listStarts "INT.".toList u then some (4 + ((u.drop 4).takeWhile isJsSpace).length)
  else if listStarts "EXT.".toList u then some (4 + ((u.drop 4).takeWhile isJsSpace).length)
  else if listStarts "INT./EXT.".toList u then some (9 + ((u.drop 9).takeWhile isJsSpace).length)
  else none

/-- The `(matchedOptions, matchStart, matchEnd)` triple computed by the
scene-heading branch of `handleInput` (Editor.tsx 245-275), as left in the
local variables just before the `matchedOptions.length > 0` test. -/
def sceneSuggestRaw (text : String) (locs : List String) : List String × Nat × Nat :=
  let u := upperChars text.toList
  let n := text.toList.length
  -- 1. Prefix stage: short text with no '.'
  if u.length < 5 ∧ ¬ containsSub u ['.'] then
    (acLeadIns.filter (fun p => listStarts u p.toList), 0, n)
  -- 2. Time stage: text contains " - "; filter by parts[1] (the segment
  --    after the FIRST separator), span from lastIndexOf (the LAST one)
  else if containsSub u " - ".toList then
    let parts := splitOnSub u " - ".toList
    let timePfx := (parts.get? 1).getD []
    (acTimes.filter (fun t => listStarts timePfx t.toList),
      (lastIndexOfSub u " - ".toList).getD 0 + 3, n)
  -- 3. Location stage: lead-in typed, no dash yet
  else if (listStarts "INT. ".toList u ∨ listStarts "EXT. ".toList u ∨
           listStarts "INT./EXT. ".toList u) ∧ ¬ containsSub u " - ".toList then
    match sceneTokenMatchLen u with
    | some m =>
      let locPfx := u.drop m
      if 0 < locPfx.length then
        (locs.filter (fun loc => listStarts locPfx loc.toList ∧ loc ≠ locPfx.asString), m, n)
      else ([], 0, n)
    | none => ([], 0, n)
  else ([], 0, n)

/-- Result of the rule engine when the popup opens. -/
structure ACResult where
  options : List String
  start : Nat
  stop : Nat
deriving DecidableEq, Repr

/-- The rule engine as a whole: `none` means "close the popup"
(`matchedOptions.length === 0`), `some` carries options and match range. -/
def sceneSuggest (text : String) (locs : List String) : Option ACResult :=
  let r := sceneSuggestRaw text locs
  if r.1.isEmpty then none else some ⟨r.1, r.2.1, r.2.2⟩

/-! ## Block editing controller (`handleKeyDown`, Editor.tsx 173-236) -/

/-- Type of the block created on Enter (Editor.tsx 199-204): the `newType`
variable starts as `action` and the chain of conditionals leaves it there
for `action` and for `transition` (which has no branch). -/
def nextTypeOnEnter : BlockType → BlockType
  | BlockType.scene_heading => BlockType.action
  | BlockType.character => BlockType.dialogue
  | BlockType.dialogue => BlockType.character
  | BlockType.parenthetical => BlockType.dialogue
  | BlockType.action => BlockType.action
  | BlockType.transition => BlockType.action

/-- The `cycle` array of the Tab branch (Editor.tsx 215). -/
def tabCycle : List BlockType :=
  [BlockType.scene_heading, BlockType.action, BlockType.character,
   BlockType.parenthetical, BlockType.dialogue, BlockType.transition]

/-- `cycle[(cycle.indexOf(block.type) + 1) % cycle.length]` (Editor.tsx 216-217). -/
def tabNext (t : BlockType) : BlockType :=
  (tabCycle.get? ((tabCycle.indexOf t + 1) % tabCycle.length)).getD BlockType.scene_heading

/-- `handleKeyDown` (Editor.tsx 173-236).  `domText` is
`e.currentTarget.textContent` as delivered by the event; `newId` is the
outcome of `generateId()` (an unconstrained `Math.random()`-derived string),
passed in as a parameter.  An out-of-range `index` is a no-op on the state:
key events originate from rendered blocks, so `index` is always in range in
the running system, and on an out-of-range index none of the branches
reaches a `setBlocks` with a changed list. -/
def handleKeyDown (st : EditorState) (index : Nat) (key : Key) (domText : String)
    (newId : String) : EditorState :=
  match st.blocks.get? index with
  | none => st
  | some block =>
    match key with
    | Key.enter =>
      -- `if (acShow) return;` - wait for selection if the popup is open
      if st.acShow then st
      else
        let newBlock : Block := ⟨newId, nextTypeOnEnter block.type, ""⟩
        { st with
          blocks := st.blocks.take (index + 1) ++ newBlock :: st.blocks.drop (index + 1),
          focusedId := some newId,
          shouldFocus := true }
    | Key.tab =>
      { st with blocks := st.blocks.set index { block with type := tabNext block.type } }
    | Key.backspace =>
      if domText = "" then
        if 0 < index then
          match st.blocks.get? (index - 1) with
          | some prev =>
            { st with
              blocks := st.blocks.take index ++ st.blocks.drop (index + 1),
              focusedId := some prev.id,
              shouldFocus := true }
          | none => st
        else st
      else st
    | _ => st

/-- `handleInput` (Editor.tsx 238-290): store the new content, then run the
rule engine.  `knownLocations` is the memoised projection of the blocks of
the previous committed render, i.e. the pre-edit block list.  When the
engine yields no options only `acShow` is reset (options and match range
keep their stale values, as in the source). -/
def handleInput (st : EditorState) (index : Nat) (text : String) : EditorState :=
  match st.blocks.get? index with
  | none => st
  | some b =>
    let b' : Block := { b with content := text }
    let st' := { st with blocks := st.blocks.set index b' }
    if b'.type = BlockType.scene_heading then
      match sceneSuggest text (knownLocations st.blocks) with
      | some r =>
        { st' with acShow := true, acOptions := r.options,
                   acMatchRange := some (r.start, r.stop) }
      | none => { st' with acShow := false }
    else { st' with acShow := false }

/-- `handleAutocompleteSelect` (Editor.tsx 292-309): replace the focused
block's content by `content.substring(0, acMatchRange.start) + value`,
close the popup, request refocus.  The `!focusedId` guard is JS-falsy, so
the empty id also bails out. -/
def handleAutocompleteSelect (st : EditorState) (value : String) : EditorState :=
  match st.focusedId, st.acMatchRange with
  | some fid, some range =>
    if fid = "" then st
    else
      match st.blocks.findIdx? (fun b => b.id = fid) with
      | none => st
      | some index =>
        match st.blocks.get? index with
        | none => st
        | some block =>
          let newText := (block.content.toList.take range.1).asString ++ value
          { st with
            blocks := st.blocks.set index { block with content := newText },
            acShow := false,
            shouldFocus := true }
  | _, _ => st

/-- The controller operations reachable from the UI: key events, content
changes, focus events, suggestion selection, popup close. -/
inductive EditorOp where
  | keyDown (index : Nat) (key : Key) (domText : String) (newId : String)
  | input (index : Nat) (text : String)
  | select (value : String)
  | focusBlock (id : String)
  | closePopup
deriving DecidableEq, Repr

/-- One controller step: dispatch an operation to its handler
(`onFocus` is `setFocusedId`, `onClose` is `setAcShow(false)`). -/
def applyOp (st : EditorState) (op : EditorOp) : EditorState :=
  match op with
  | EditorOp.keyDown i k domText newId => handleKeyDown st i k domText newId
  | EditorOp.input i text => handleInput st i text
  | EditorOp.select v => handleAutocompleteSelect st v
  | EditorOp.focusBlock id => { st with focusedId := some id }
  | EditorOp.closePopup => { st with acShow := false }

/-! ## Anchor resolver (`getLineAnchorRect` / `getAnchorRect`,
Editor.tsx 108-171)

Screen geometry is modelled over `ℚ`: the source logic uses only
comparisons and additions of DOM coordinates, which any linear ordered
field captures. -/

/-- A DOMRect-shaped rectangle (`toAnchorRect`'s field set). -/
structure Rect where
  x : ℚ
  y : ℚ
  top : ℚ
  bottom : ℚ
  left : ℚ
  right : ℚ
  width : ℚ
  height : ℚ
deriving DecidableEq, Repr

/-- `toAnchorRect` (Editor.tsx 108-117): copy the eight fields. -/
def toAnchorRect (r : Rect) : Rect :=
  ⟨r.x, r.y, r.top, r.bottom, r.left, r.right, r.width, r.height⟩

/-- `Number.parseFloat(computed.lineHeight || '0') || 22` (Editor.tsx 122):
`none` models a NaN parse; NaN and 0 are falsy, so both give 22. -/
def lineHeightOf (parsed : Option ℚ) : ℚ :=
  match parsed with
  | none => 22
  | some q => if q = 0 then 22 else q

/-- `getLineAnchorRect` (Editor.tsx 119-135): a 1-unit-wide, one-line-tall
virtual caret at the top-left of the block's bounding rectangle. -/
def getLineAnchorRect (blockRect : Rect) (parsedLineHeight : Option ℚ) : Rect :=
  let lineHeight := lineHeightOf parsedLineHeight
  ⟨blockRect.left, blockRect.top, blockRect.top, blockRect.top + lineHeight,
   blockRect.left, blockRect.left + 1, 1, lineHeight⟩

/-- The live selection data `getAnchorRect` reads: whether the range's
start container lies inside the editable element, the range's bounding
rectangle, whether it is collapsed, its start offset, and the bounding
rectangle of the preceding-character probe range. -/
structure SelRange where
  inBlock : Bool
  rect : Rect
  collapsed : Bool
  startOffset : Nat
  probeRect : Rect
deriving DecidableEq, Repr

/-- The caret-rectangle recovery of `getAnchorRect` (Editor.tsx 143-154):
a collapsed range at a non-zero offset reporting zero dimensions retries
on the rectangle of the immediately preceding character, keeping the probe
only when it has a dimension. -/
def resolveCaretRect (range : SelRange) : Rect :=
  if range.rect.width = 0 ∧ range.rect.height = 0 ∧ range.collapsed ∧
     0 < range.startOffset then
    if range.probeRect.width ≠ 0 ∨ range.probeRect.height ≠ 0 then range.probeRect
    else range.rect
  else range.rect

/-- `getAnchorRect` (Editor.tsx 137-171): validate the caret rectangle
(reject the exact zero rect at the origin and rectangles implausibly far
from the block, require a non-zero dimension), else fall back to the
line anchor. -/
def getAnchorRect (blockRect : Rect) (parsedLineHeight : Option ℚ)
    (sel : Option SelRange) : Rect :=
  let lineRect := getLineAnchorRect blockRect parsedLineHeight
  match sel with
  | none => lineRect
  | some range =>
    if range.inBlock then
      let caretRect := resolveCaretRect range
      if ¬ (caretRect.left = 0 ∧ caretRect.top = 0 ∧
            caretRect.width = 0 ∧ caretRect.height = 0) ∧
         (caretRect.left ≥ lineRect.left - 8 ∧
          caretRect.left ≤ lineRect.left + blockRect.width + 8 ∧
          caretRect.top ≥ lineRect.top - 40 ∧
          caretRect.top ≤ lineRect.bottom + 40) ∧
         (caretRect.width ≠ 0 ∨ caretRect.height ≠ 0) then
        toAnchorRect caretRect
      else lineRect
    else lineRect

/-! ## Suggestion popup key listener (Autocomplete.tsx 92-119) -/

/-- What the popup's capture-phase window keydown listener does with one
key event. -/
structure KeyOutcome where
  prevented : Bool
  stopped : Bool
  selected : Option String
  closed : Bool
deriving DecidableEq, Repr

/-- The global keydown listener of `Autocomplete` (Autocomplete.tsx
92-119).  It is attached only while `isOpen && options.length > 0`; while
attached it consumes ArrowUp/ArrowDown/Enter/Escape in the capture phase,
and Enter emits the highlighted option (if the highlight index is valid). -/
def acGlobalKeyDown (isOpen : Bool) (options : List String) (highlightedIndex : Int)
    (key : Key) : KeyOutcome :=
  if ¬ isOpen ∨ options.isEmpty then ⟨false, false, none, false⟩
  else
    match key with
    | Key.arrowDown => ⟨true, true, none, false⟩
    | Key.arrowUp => ⟨true, true, none, false⟩
    | Key.enter =>
      ⟨true, true,
        if 0 ≤ highlightedIndex ∧ highlightedIndex < options.length then
          options.get? highlightedIndex.toNat
        else none,
        false⟩
    | Key.escape => ⟨true, true, none, true⟩
    | _ => ⟨false, false, none, false⟩

/-! ## Shared helper lemmas -/

/-- Setting an index to a value keeps the entry readable at that index. -/
theorem get?_set_self {α : Type} (l : List α) (i : Nat) (a : α) (h : i < l.length) :
    (l.set i a).get? i = some a := by
  induction l generalizing i with
  | nil => simp at h
  | cons x xs ih =>
    cases i with
    | zero => rfl
    | succ j => simpa using ih j (by simpa using h)

/-- Setting an index does not change the entries at other indices. -/
theorem get?_set_other {α : Type} (l : List α) (i j : Nat) (a : α) (h : j ≠ i) :
    (l.set i a).get? j = l.get? j := by
  induction l generalizing i j with
  | nil => rfl
  | cons x xs ih =>
    cases i with
    | zero => cases j with
      | zero => exact absurd rfl h
      | succ k => rfl
    | succ i' => cases j with
      | zero => rfl
      | succ k => simpa using ih i' k (fun hc => h (by simpa using hc))

/-- Writing back the value already stored at an index is the identity. -/
theorem set_get?_eq {α : Type} (l : List α) (i : Nat) (a : α) (h : l.get? i = some a) :
    l.set i a = l := by
  induction l generalizing i with
  | nil => simp at h
  | cons x xs ih =>
    cases i with
    | zero => simp_all
    | succ j => simpa using ih j (by simpa using h)

/-- Overwriting a block with one carrying the same id leaves the id
projection of the document unchanged. -/
theorem map_id_set_same {l : List Block} {i : Nat} {b b' : Block}
    (h : l.get? i = some b) (hid : b'.id = b.id) :
    (l.set i b').map Block.id = l.map Block.id := by
  have h1 : (l.set i b').map Block.id = (l.map Block.id).set i b'.id := List.map_set ..
  have h2 : (l.map Block.id).get? i = some b.id := by
    rw [List.get?_eq_getElem?, List.getElem?_map, ← List.get?_eq_getElem?, h]; rfl
  rw [h1, hid, set_get?_eq _ _ _ h2]

/-- Inserting a fresh element at a cut point preserves `Nodup`. -/
theorem nodup_take_cons_drop {α : Type} {L : List α} {a : α} (n : Nat)
    (h : L.Nodup) (ha : a ∉ L) : (L.take n ++ a :: L.drop n).Nodup := by
  have hsplit : L.take n ++ L.drop n = L := List.take_append_drop n L
  have h' : (L.take n ++ L.drop n).Nodup := by rw [hsplit]; exact h
  obtain ⟨h1, h2, hdisj⟩ := List.nodup_append.mp h'
  refine List.nodup_append.mpr ⟨h1, List.nodup_cons.mpr ⟨?_, h2⟩, ?_⟩
  · intro hc
    exact ha (List.mem_of_mem_drop hc)
  · intro x hx hc
    rcases List.mem_cons.mp hc with hxa | hxd
    · exact ha (hxa ▸ List.mem_of_mem_take hx)
    · exact hdisj hx hxd

/-- Removing the element at an index preserves `Nodup`. -/
theorem nodup_take_append_drop_succ {α : Type} {L : List α} (n : Nat)
    (h : L.Nodup) : (L.take n ++ L.drop (n + 1)).Nodup := by
  have hsub : List.Sublist (L.take n ++ L.drop (n + 1)) (L.take n ++ L.drop n) := by
    refine List.Sublist.append_left ?_ _
    have : L.drop (n + 1) = (L.drop n).drop 1 := by
      rw [List.drop_drop]
    rw [this]
    exact List.drop_sublist 1 (L.drop n)
  have : L.take n ++ L.drop n = L := List.take_append_drop n L
  exact (this ▸ hsub).nodup h

/-- The empty string passes the prefix stage, so the rule engine opens the
full lead-in menu for any known-locations set. -/
theorem sceneSuggest_empty_text (locs : List String) :
    sceneSuggest "" locs = some ⟨["INT. ", "EXT. ", "INT./EXT. "], 0, 0⟩ := rfl

/-! ## Claims -/

/-- **C1.** The claim says the time stage filters the time options by the
suffix after the LAST ` - ` of the text.  The source filters by
`parts[1]`, the segment after the FIRST ` - `, while the replacement span
does start after the last ` - ` (`lastIndexOf`).  On
`"INT. A - DAY - X"` the suffix after the last separator is `"X"`, which
no time option starts with, so the claim predicts no options (popup
closed); the code instead filters by `"DAY"` and opens with the single
option `DAY`, replacement span `[15, 16)`. -/
theorem time_stage_filter_uses_first_segment :
    sceneSuggest "INT. A - DAY - X" [] = some ⟨["DAY"], 15, 16⟩ ∧
    sceneSuggest "INT. A - DAY - X" [] ≠ none := by
  constructor
  · decide
  · decide

/-- **C2 counterexample.** The spec's precedence examples fail on the
code: on text `"IN"` the lead-in filter keeps both `"INT. "` and
`"INT./EXT. "` (both start with `"IN"`), not exactly `"INT. "`; and on
text `"INT. "` the location remainder is empty, so the engine yields no
options at all rather than `"COFFEE SHOP"`. -/
theorem precedence_examples_counterexample :
    sceneSuggest "IN" ["COFFEE SHOP"] = some ⟨["INT. ", "INT./EXT. "], 0, 2⟩ ∧
    (sceneSuggest "IN" ["COFFEE SHOP"]).map ACResult.options ≠ some ["INT. "] ∧
    sceneSuggest "INT. " ["COFFEE SHOP"] = none := by
  refine ⟨by decide, by decide, by decide⟩

/-- **C2 amended.** With KnownLocations = {`COFFEE SHOP`}: text `"IN"`
yields exactly `["INT. ", "INT./EXT. "]`; text `"INT. COFFEE SHOP - D"`
yields exactly `["DAY"]`; text `"INT. "` yields no options (the location
stage requires a non-empty remainder after the lead-in); text `"INT. C"`
yields exactly `["COFFEE SHOP"]`. -/
theorem precedence_examples_amended :
    (sceneSuggest "IN" ["COFFEE SHOP"]).map ACResult.options = some ["INT. ", "INT./EXT. "] ∧
    (sceneSuggest "INT. COFFEE SHOP - D" ["COFFEE SHOP"]).map ACResult.options = some ["DAY"] ∧
    sceneSuggest "INT. " ["COFFEE SHOP"] = none ∧
    (sceneSuggest "INT. C" ["COFFEE SHOP"]).map ACResult.options = some ["COFFEE SHOP"] := by
  refine ⟨by decide, by decide, by decide, by decide⟩

/-- **C3.** The claim (and the spec) say the projection strips a leading
`INT.`/`EXT.`/`INT./EXT.` token, so a heading `INT./EXT. BARN - DAY`
projects to `BARN`.  The source regex alternation
`(INT\.|EXT\.|INT\.\/EXT\.)` tries `INT\.` first, which matches, so only
`INT.` is removed and the projected entry is `/EXT. BARN`; the
`INT\.\/EXT\.` alternative is unreachable. -/
theorem knownLocations_int_ext_heading_eval :
    knownLocations [⟨"a", BlockType.scene_heading, "INT./EXT. BARN - DAY"⟩] = ["/EXT. BARN"] ∧
    knownLocations [⟨"a", BlockType.scene_heading, "INT./EXT. BARN - DAY"⟩] ≠ ["BARN"] := by
  refine ⟨by decide, by decide⟩

/-- **C10.** Emptying the text of a focused scene_heading block re-opens
the popup with the full lead-in menu `["INT. ", "EXT. ", "INT./EXT. "]`
and replacement span `[0, 0)`: the empty text passes the prefix stage and
every lead-in starts with the empty string. -/
theorem empty_scene_heading_opens_lead_in_menu (st : EditorState) (i : Nat) (b : Block)
    (h1 : st.blocks.get? i = some b) (h2 : b.type = BlockType.scene_heading) :
    (handleInput st i "").acShow = true ∧
    (handleInput st i "").acOptions = ["INT. ", "EXT. ", "INT./EXT. "] ∧
    (handleInput st i "").acMatchRange = some (0, 0) := by
  simp only [handleInput, h1, h2, sceneSuggest_empty_text]
  exact ⟨rfl, rfl, rfl⟩

/-- Witness for C10 at a concrete one-block document. -/
theorem empty_scene_heading_opens_lead_in_menu_witness :
    (EditorState.mk [⟨"a", BlockType.scene_heading, "INT. X"⟩] (some "a") false false [] none).blocks.get? 0 =
      some ⟨"a", BlockType.scene_heading, "INT. X"⟩ ∧
    (Block.mk "a" BlockType.scene_heading "INT. X").type = BlockType.scene_heading ∧
    (handleInput (EditorState.mk [⟨"a", BlockType.scene_heading, "INT. X"⟩] (some "a") false false [] none) 0 "").acOptions =
      ["INT. ", "EXT. ", "INT./EXT. "] :=
  ⟨rfl, rfl,
    (empty_scene_heading_opens_lead_in_menu
      (EditorState.mk [⟨"a", BlockType.scene_heading, "INT. X"⟩] (some "a") false false [] none)
      0 ⟨"a", BlockType.scene_heading, "INT. X"⟩ rfl rfl).2.1⟩

/-- Reading an entry successfully bounds the index. -/
theorem lt_length_of_get?_some {α : Type} {l : List α} {i : Nat} {a : α}
    (h : l.get? i = some a) : i < l.length := by
  induction l generalizing i with
  | nil => simp at h
  | cons x xs ih =>
    cases i with
    | zero => simp
    | succ j => simpa using Nat.succ_lt_succ (ih (by simpa using h))

/-- A content edit only rewrites the content of the edited block, so the id
projection of the document is unchanged. -/
theorem map_id_handleInput (st : EditorState) (i : Nat) (text : String) :
    (handleInput st i text).blocks.map Block.id = st.blocks.map Block.id := by
  unfold handleInput
  rcases hg : st.blocks.get? i with _ | b
  · rfl
  · simp only
    have hset := @map_id_set_same st.blocks i b { b with content := text } hg rfl
    split
    · split <;> simpa using hset
    · simpa using hset

/-- Selecting a suggestion only rewrites the content of the focused block,
so the id projection of the document is unchanged. -/
theorem map_id_handleAutocompleteSelect (st : EditorState) (v : String) :
    (handleAutocompleteSelect st v).blocks.map Block.id = st.blocks.map Block.id := by
  unfold handleAutocompleteSelect
  rcases hf : st.focusedId with _ | fid
  · rfl
  rcases hr : st.acMatchRange with _ | r
  · rfl
  simp only
  by_cases hfe : fid = ""
  · simp [hfe]
  rw [if_neg hfe]
  cases hidx : st.blocks.findIdx? (fun b => b.id = fid) with
  | none => simp only [hidx]
  | some index =>
    cases hg : st.blocks.get? index with
    | none => simp only [hidx, hg]
    | some block =>
      simp only [hidx, hg]
      exact map_id_set_same hg rfl

/-- One controller step never empties the document: Backspace-on-empty
removes only at a positive index of an in-range event, every other
operation preserves or grows the block count. -/
theorem applyOp_length_pos (st : EditorState) (op : EditorOp)
    (h : 0 < st.blocks.length) : 0 < (applyOp st op).blocks.length := by
  cases op with
  | keyDown i k domText newId =>
    simp only [applyOp, handleKeyDown]
    rcases hg : st.blocks.get? i with _ | b
    · exact h
    have hi : i < st.blocks.length := lt_length_of_get?_some hg
    cases k with
    | enter =>
      by_cases hac : st.acShow
      · simpa [hac] using h
      · simp only [hac, if_false]
        simp [List.length_append]
    | tab => simpa [List.length_set] using h
    | backspace =>
      by_cases hd : domText = ""
      · subst hd
        rw [if_pos rfl]
        by_cases hip : 0 < i
        · rw [if_pos hip]
          cases hp : st.blocks.get? (i - 1) with
          | none =>
            try simp only [hp]
            exact h
          | some prev =>
            try simp only [hp]
            simp only [List.length_append, List.length_take, List.length_drop]
            omega
        · rw [if_neg hip]
          exact h
      · rw [if_neg hd]
        exact h
    | arrowUp => exact h
    | arrowDown => exact h
    | escape => exact h
    | other => exact h
  | input i text =>
    have hlen : (applyOp st (EditorOp.input i text)).blocks.length = st.blocks.length := by
      simpa using congrArg List.length (map_id_handleInput st i text)
    omega
  | select v =>
    have hlen : (applyOp st (EditorOp.select v)).blocks.length = st.blocks.length := by
      simpa using congrArg List.length (map_id_handleAutocompleteSelect st v)
    omega
  | focusBlock id => exact h
  | closePopup => exact h

/-- **C4.** Starting from any document with at least one block, any
sequence of controller operations (Enter insertion, Tab cycling,
Backspace-on-empty removal, content edits, suggestion selection, focus and
close events) leaves at least one block: Backspace-on-empty removes only
at index > 0, so the count can never reach zero. -/
theorem document_never_empty (ops : List EditorOp) (st : EditorState)
    (h : 0 < st.blocks.length) : 0 < (ops.foldl applyOp st).blocks.length := by
  induction ops generalizing st with
  | nil => simpa using h
  | cons op rest ih =>
    simpa using ih (applyOp st op) (applyOp_length_pos st op h)

/-- Witness for C4: two Backspace-on-empty events on a two-block document
leave one block (the second removal is refused at index 0). -/
theorem document_never_empty_witness :
    0 < (EditorState.mk [⟨"a", BlockType.action, ""⟩, ⟨"b", BlockType.action, ""⟩]
          (some "b") false false [] none).blocks.length ∧
    0 < (([EditorOp.keyDown 1 Key.backspace "" "x", EditorOp.keyDown 0 Key.backspace "" "y"].foldl
          applyOp
          (EditorState.mk [⟨"a", BlockType.action, ""⟩, ⟨"b", BlockType.action, ""⟩]
            (some "b") false false [] none)).blocks.length) :=
  ⟨by decide,
    document_never_empty
      [EditorOp.keyDown 1 Key.backspace "" "x", EditorOp.keyDown 0 Key.backspace "" "y"]
      (EditorState.mk [⟨"a", BlockType.action, ""⟩, ⟨"b", BlockType.action, ""⟩]
        (some "b") false false [] none)
      (by decide)⟩

/-- **C7.** One Tab keydown on the block at an in-range index replaces its
type by the next element of the six-element ring scene_heading → action →
character → parenthetical → dialogue → transition → scene_heading, keeps
its content and every other block, keeps the focus state, and six Tabs are
the identity on the type. -/
theorem tab_cycles_six_ring (st : EditorState) (i : Nat) (b : Block)
    (domText newId : String) (h : st.blocks.get? i = some b) :
    (handleKeyDown st i Key.tab domText newId).blocks.get? i =
      some { b with type := tabNext b.type } ∧
    (∀ j, j ≠ i → (handleKeyDown st i Key.tab domText newId).blocks.get? j = st.blocks.get? j) ∧
    (handleKeyDown st i Key.tab domText newId).focusedId = st.focusedId ∧
    (handleKeyDown st i Key.tab domText newId).shouldFocus = st.shouldFocus ∧
    tabNext BlockType.scene_heading = BlockType.action ∧
    tabNext BlockType.action = BlockType.character ∧
    tabNext BlockType.character = BlockType.parenthetical ∧
    tabNext BlockType.parenthetical = BlockType.dialogue ∧
    tabNext BlockType.dialogue = BlockType.transition ∧
    tabNext BlockType.transition = BlockType.scene_heading ∧
    (∀ t : BlockType, tabNext (tabNext (tabNext (tabNext (tabNext (tabNext t))))) = t) := by
  have hi : i < st.blocks.length := lt_length_of_get?_some h
  refine ⟨?_, ?_, ?_, ?_, by decide, by decide, by decide, by decide, by decide, by decide, ?_⟩
  · simp only [handleKeyDown, h]
    exact get?_set_self _ _ _ hi
  · intro j hj
    simp only [handleKeyDown, h]
    exact get?_set_other _ _ _ _ hj
  · simp only [handleKeyDown, h]
  · simp only [handleKeyDown, h]
  · intro t
    cases t <;> decide

/-- Witness for C7 on a concrete one-block document. -/
theorem tab_cycles_six_ring_witness :
    (EditorState.mk [⟨"a", BlockType.dialogue, "HI"⟩] none false false [] none).blocks.get? 0 =
      some ⟨"a", BlockType.dialogue, "HI"⟩ ∧
    (handleKeyDown (EditorState.mk [⟨"a", BlockType.dialogue, "HI"⟩] none false false [] none)
        0 Key.tab "HI" "z").blocks.get? 0 = some ⟨"a", BlockType.transition, "HI"⟩ :=
  ⟨rfl,
    (tab_cycles_six_ring
      (EditorState.mk [⟨"a", BlockType.dialogue, "HI"⟩] none false false [] none)
      0 ⟨"a", BlockType.dialogue, "HI"⟩ "HI" "z" rfl).1⟩

/-- **C5.** While the popup is open, the controller's Enter branch
(`if (acShow) return;`) leaves the whole editor state — in particular the
block sequence — untouched, and the popup's capture-phase window listener
(attached exactly while open with options) consumes the Enter key event
(`preventDefault` + `stopPropagation`).  Selection-on-Enter is delegated
entirely to the popup's own handler. -/
theorem enter_while_popup_open_frame (st : EditorState) (i : Nat) (domText newId : String)
    (hlIdx : Int) (hOpen : st.acShow = true) (hOpts : st.acOptions ≠ []) :
    handleKeyDown st i Key.enter domText newId = st ∧
    (acGlobalKeyDown st.acShow st.acOptions hlIdx Key.enter).prevented = true ∧
    (acGlobalKeyDown st.acShow st.acOptions hlIdx Key.enter).stopped = true := by
  have hcons : st.acOptions.isEmpty = false := by
    cases hopt : st.acOptions with
    | nil => exact absurd hopt hOpts
    | cons a l => rfl
  refine ⟨?_, ?_, ?_⟩
  · simp only [handleKeyDown]
    cases hg : st.blocks.get? i with
    | none => rfl
    | some b =>
      try simp only [hg]
      simp [hOpen]
  · simp [acGlobalKeyDown, hOpen, hcons]
  · simp [acGlobalKeyDown, hOpen, hcons]

/-- Witness for C5 on a concrete open-popup state. -/
theorem enter_while_popup_open_frame_witness :
    (EditorState.mk [⟨"a", BlockType.scene_heading, "I"⟩] (some "a") false true
      ["INT. ", "INT./EXT. "] (some (0, 1))).acShow = true ∧
    (EditorState.mk [⟨"a", BlockType.scene_heading, "I"⟩] (some "a") false true
      ["INT. ", "INT./EXT. "] (some (0, 1))).acOptions ≠ [] ∧
    handleKeyDown
      (EditorState.mk [⟨"a", BlockType.scene_heading, "I"⟩] (some "a") false true
        ["INT. ", "INT./EXT. "] (some (0, 1))) 0 Key.enter "I" "z" =
      EditorState.mk [⟨"a", BlockType.scene_heading, "I"⟩] (some "a") false true
        ["INT. ", "INT./EXT. "] (some (0, 1)) :=
  ⟨rfl, by decide,
    (enter_while_popup_open_frame
      (EditorState.mk [⟨"a", BlockType.scene_heading, "I"⟩] (some "a") false true
        ["INT. ", "INT./EXT. "] (some (0, 1))) 0 "I" "z" 0 rfl (by decide)).1⟩

/-- **C6.** Selecting an option `v` while a match range is set rewrites the
focused block's content to exactly `content[0:span.start] ++ v` — any text
from `span.start` onward is discarded — and leaves every other block
unchanged. -/
theorem select_replaces_from_span_start (st : EditorState) (fid : String) (s e idx : Nat)
    (b : Block) (v : String)
    (h1 : st.focusedId = some fid) (h2 : fid ≠ "") (h3 : st.acMatchRange = some (s, e))
    (h4 : st.blocks.findIdx? (fun bb => bb.id = fid) = some idx)
    (h5 : st.blocks.get? idx = some b) :
    (handleAutocompleteSelect st v).blocks.get? idx =
      some { b with content := (b.content.toList.take s).asString ++ v } ∧
    (∀ j, j ≠ idx → (handleAutocompleteSelect st v).blocks.get? j = st.blocks.get? j) := by
  have hi : idx < st.blocks.length := lt_length_of_get?_some h5
  unfold handleAutocompleteSelect
  simp only [h1, h3]
  rw [if_neg h2, h4]
  simp only [h5]
  constructor
  · exact get?_set_self _ _ _ hi
  · intro j hj
    exact get?_set_other _ _ _ _ hj

/-- Witness for C6: selecting "COFFEE SHOP" over span start 5 on content
"INT. CO" yields "INT. COFFEE SHOP" and leaves the other block alone. -/
theorem select_replaces_from_span_start_witness :
    (EditorState.mk [⟨"a", BlockType.scene_heading, "INT. CO"⟩, ⟨"b", BlockType.action, "Z"⟩]
      (some "a") false true ["COFFEE SHOP"] (some (5, 7))).focusedId = some "a" ∧
    "a" ≠ "" ∧
    (EditorState.mk [⟨"a", BlockType.scene_heading, "INT. CO"⟩, ⟨"b", BlockType.action, "Z"⟩]
      (some "a") false true ["COFFEE SHOP"] (some (5, 7))).acMatchRange = some (5, 7) ∧
    (EditorState.mk [⟨"a", BlockType.scene_heading, "INT. CO"⟩, ⟨"b", BlockType.action, "Z"⟩]
      (some "a") false true ["COFFEE SHOP"] (some (5, 7))).blocks.findIdx?
        (fun bb => bb.id = "a") = some 0 ∧
    (handleAutocompleteSelect
      (EditorState.mk [⟨"a", BlockType.scene_heading, "INT. CO"⟩, ⟨"b", BlockType.action, "Z"⟩]
        (some "a") false true ["COFFEE SHOP"] (some (5, 7)))
      "COFFEE SHOP").blocks.get? 0 =
      some ⟨"a", BlockType.scene_heading, "INT. COFFEE SHOP"⟩ :=
  ⟨rfl, by decide, rfl, by decide,
    (select_replaces_from_span_start
      (EditorState.mk [⟨"a", BlockType.scene_heading, "INT. CO"⟩, ⟨"b", BlockType.action, "Z"⟩]
        (some "a") false true ["COFFEE SHOP"] (some (5, 7)))
      "a" 5 7 0 ⟨"a", BlockType.scene_heading, "INT. CO"⟩ "COFFEE SHOP"
      rfl (by decide) rfl (by decide) rfl).1⟩

/-- **C8 counterexample.** The id generator is an unconstrained
`Math.random()` string with no uniqueness check: the outcome that repeats
an existing id produces a document with two equal ids.  Here Enter on a
one-block document with generated id `"a"` — an id already present —
yields duplicate ids. -/
theorem id_uniqueness_counterexample :
    ¬ (((handleKeyDown
        (EditorState.mk [⟨"a", BlockType.action, ""⟩] (some "a") false false [] none)
        0 Key.enter "" "a").blocks.map Block.id).Nodup) := by decide

/-- **C8 amended.** Ids are never mutated by any controller operation
(every block of the next state carries either an id already in the
document or the id handed to Enter-insertion), and id uniqueness is
preserved by every operation **provided** the id supplied to
Enter-insertion is not already present in the document.  For an arbitrary
generator outcome the invariant can fail (see the counterexample). -/
theorem id_uniqueness_amended (st : EditorState) (op : EditorOp)
    (h1 : (st.blocks.map Block.id).Nodup)
    (h2 : ∀ i domText newId, op = EditorOp.keyDown i Key.enter domText newId →
      newId ∉ st.blocks.map Block.id) :
    ((applyOp st op).blocks.map Block.id).Nodup ∧
    ∀ b, b ∈ (applyOp st op).blocks →
      b.id ∈ st.blocks.map Block.id ∨
      ∃ i domText, op = EditorOp.keyDown i Key.enter domText b.id := by
  cases op with
  | keyDown i k domText newId =>
    simp only [applyOp, handleKeyDown]
    cases hg : st.blocks.get? i with
    | none =>
      try simp only [hg]
      exact ⟨h1, fun b hb => Or.inl (List.mem_map_of_mem Block.id hb)⟩
    | some blk =>
      try simp only [hg]
      cases k with
      | enter =>
        by_cases hac : st.acShow
        · rw [if_pos hac]
          exact ⟨h1, fun b hb => Or.inl (List.mem_map_of_mem Block.id hb)⟩
        · rw [if_neg hac]
          have hfresh : newId ∉ st.blocks.map Block.id := h2 i domText newId rfl
          constructor
          · simp only [List.map_append, List.map_cons, List.map_take, List.map_drop]
            exact nodup_take_cons_drop (i + 1) h1 hfresh
          · intro b hb
            rcases List.mem_append.mp hb with hbt | hbc
            · exact Or.inl (List.mem_map_of_mem _ (List.mem_of_mem_take hbt))
            · rcases List.mem_cons.mp hbc with hbeq | hbd
              · subst hbeq
                exact Or.inr ⟨i, domText, rfl⟩
              · exact Or.inl (List.mem_map_of_mem _ (List.mem_of_mem_drop hbd))
      | tab =>
        have hmap := @map_id_set_same st.blocks i blk
          { blk with type := tabNext blk.type } hg rfl
        constructor
        · rw [hmap]
          exact h1
        · intro b hb
          left
          have hmem : b.id ∈ (st.blocks.set i
              { blk with type := tabNext blk.type }).map Block.id :=
            List.mem_map_of_mem _ hb
          rwa [hmap] at hmem
      | backspace =>
        by_cases hd : domText = ""
        · subst hd
          rw [if_pos rfl]
          by_cases hip : 0 < i
          · rw [if_pos hip]
            cases hp : st.blocks.get? (i - 1) with
            | none =>
              try simp only [hp]
              exact ⟨h1, fun b hb => Or.inl (List.mem_map_of_mem Block.id hb)⟩
            | some prev =>
              try simp only [hp]
              constructor
              · simp only [List.map_append, List.map_take, List.map_drop]
                exact nodup_take_append_drop_succ i h1
              · intro b hb
                rcases List.mem_append.mp hb with hbt | hbd
                · exact Or.inl (List.mem_map_of_mem _ (List.mem_of_mem_take hbt))
                · exact Or.inl (List.mem_map_of_mem _ (List.mem_of_mem_drop hbd))
          · rw [if_neg hip]
            exact ⟨h1, fun b hb => Or.inl (List.mem_map_of_mem Block.id hb)⟩
        · rw [if_neg hd]
          exact ⟨h1, fun b hb => Or.inl (List.mem_map_of_mem Block.id hb)⟩
      | arrowUp => exact ⟨h1, fun b hb => Or.inl (List.mem_map_of_mem Block.id hb)⟩
      | arrowDown => exact ⟨h1, fun b hb => Or.inl (List.mem_map_of_mem Block.id hb)⟩
      | escape => exact ⟨h1, fun b hb => Or.inl (List.mem_map_of_mem Block.id hb)⟩
      | other => exact ⟨h1, fun b hb => Or.inl (List.mem_map_of_mem Block.id hb)⟩
  | input i text =>
    have hmap := map_id_handleInput st i text
    constructor
    · simp only [applyOp]
      rw [hmap]
      exact h1
    · intro b hb
      left
      have hmem : b.id ∈ (handleInput st i text).blocks.map Block.id :=
        List.mem_map_of_mem _ hb
      rwa [hmap] at hmem
  | select v =>
    have hmap := map_id_handleAutocompleteSelect st v
    constructor
    · simp only [applyOp]
      rw [hmap]
      exact h1
    · intro b hb
      left
      have hmem : b.id ∈ (handleAutocompleteSelect st v).blocks.map Block.id :=
        List.mem_map_of_mem _ hb
      rwa [hmap] at hmem
  | focusBlock id => exact ⟨h1, fun b hb => Or.inl (List.mem_map_of_mem Block.id hb)⟩
  | closePopup => exact ⟨h1, fun b hb => Or.inl (List.mem_map_of_mem Block.id hb)⟩

/-- Witness for the amended C8: Enter with a fresh id "b" on a one-block
document keeps ids unique. -/
theorem id_uniqueness_amended_witness :
    (((EditorState.mk [⟨"a", BlockType.action, ""⟩] (some "a") false false [] none).blocks.map
        Block.id).Nodup) ∧
    (((applyOp (EditorState.mk [⟨"a", BlockType.action, ""⟩] (some "a") false false [] none)
        (EditorOp.keyDown 0 Key.enter "" "b")).blocks.map Block.id).Nodup) :=
  ⟨by decide,
    (id_uniqueness_amended
      (EditorState.mk [⟨"a", BlockType.action, ""⟩] (some "a") false false [] none)
      (EditorOp.keyDown 0 Key.enter "" "b")
      (by decide)
      (by intro i dt nid heq; cases heq; decide)).1⟩

/-- Case analysis on the anchor resolver: the result is either an accepted
caret rectangle (whose validation guard forces a non-zero dimension) or
the line-anchor fallback. -/
theorem getAnchorRect_cases (blockRect : Rect) (plh : Option ℚ) (sel : Option SelRange) :
    (∃ c : Rect, getAnchorRect blockRect plh sel = toAnchorRect c ∧
      (c.width ≠ 0 ∨ c.height ≠ 0)) ∨
    getAnchorRect blockRect plh sel = getLineAnchorRect blockRect plh := by
  cases sel with
  | none => exact Or.inr rfl
  | some r =>
    simp only [getAnchorRect]
    split
    · split
      · rename_i hcond
        exact Or.inl ⟨_, rfl, hcond.2.2⟩
      · exact Or.inr rfl
    · exact Or.inr rfl

/-- **C9.** The anchor resolver never returns the all-zero rectangle: the
line-anchor fallback has width 1 (and height one line-height), and an
accepted caret rectangle passed the validation guard requiring a non-zero
width or height.  The result is always one of those two rectangles. -/
theorem anchor_never_all_zero (blockRect : Rect) (plh : Option ℚ) (sel : Option SelRange)
    (h : blockRect.width ≠ 0 ∧ blockRect.height ≠ 0) :
    ¬ ((getAnchorRect blockRect plh sel).left = 0 ∧
       (getAnchorRect blockRect plh sel).top = 0 ∧
       (getAnchorRect blockRect plh sel).width = 0 ∧
       (getAnchorRect blockRect plh sel).height = 0) ∧
    ((∃ c : Rect, getAnchorRect blockRect plh sel = toAnchorRect c ∧
        (c.width ≠ 0 ∨ c.height ≠ 0)) ∨
      getAnchorRect blockRect plh sel = getLineAnchorRect blockRect plh) := by
  constructor
  · rcases getAnchorRect_cases blockRect plh sel with ⟨c, hc, hcw⟩ | hl
    · rw [hc]
      rintro ⟨-, -, hw, hh⟩
      rcases hcw with h' | h'
      · exact h' hw
      · exact h' hh
    · rw [hl]
      rintro ⟨-, -, hw, -⟩
      exact one_ne_zero hw
  · exact getAnchorRect_cases blockRect plh sel

/-- Witness for C9 on a concrete block rectangle with no live selection. -/
theorem anchor_never_all_zero_witness :
    ((Rect.mk 5 6 6 46 5 305 300 40).width ≠ 0 ∧ (Rect.mk 5 6 6 46 5 305 300 40).height ≠ 0) ∧
    ¬ ((getAnchorRect (Rect.mk 5 6 6 46 5 305 300 40) (some 22) none).left = 0 ∧
       (getAnchorRect (Rect.mk 5 6 6 46 5 305 300 40) (some 22) none).top = 0 ∧
       (getAnchorRect (Rect.mk 5 6 6 46 5 305 300 40) (some 22) none).width = 0 ∧
       (getAnchorRect (Rect.mk 5 6 6 46 5 305 300 40) (some 22) none).height = 0) :=
  ⟨⟨by decide, by decide⟩,
    (anchor_never_all_zero (Rect.mk 5 6 6 46 5 305 300 40) (some 22) none
      ⟨by decide, by decide⟩).1⟩

end DreamDraw
